import Mathlib

/-!
Verification of the search-space core of the Ax repository
(`ax/core/search_space.py`): the `SearchSpace` class (parameter and
constraint management, membership checking, arm construction and casting)
and the `HierarchicalSearchSpace` subclass (root discovery and dependency
tree validation).

The Python code is shallowly embedded: dictionaries become association
lists, Python `set`s become `Finset String`, exceptions become an explicit
`Err` type through `Except`, and the unbounded recursion of
`_check_subtree` is driven by an explicit fuel argument (fuel exhaustion
models Python's `RecursionError` on cyclic dependent graphs).

Python object identity (relevant to constraint rebinding in
`set_parameter_constraints`) is modelled by a `uid` field on `Parameter`
that value equality (`Base.__eq__`, which compares attributes) ignores.
-/

/-- Python parameter values as they appear in parameterizations:
`None`, `int`, `float` (modelled as `Rat`), `str` and `bool`. -/
inductive Value where
  | none
  | int (n : Int)
  | float (q : Rat)
  | str (s : String)
  | bool (b : Bool)
deriving DecidableEq, Repr

/-- The four Ax parameter types (`ParameterType` in `ax/core/parameter.py`). -/
inductive ParameterType where
  | int
  | float
  | bool
  | string
deriving DecidableEq, Repr

/-- Python `int()` truncation toward zero of a rational. -/
def ratTrunc (q : Rat) : Int :=
  if 0 ≤ q then q.floor else q.ceil

/-- Modelled from the spec: `Parameter.cast` (the `Parameter` classes live in
`ax/core/parameter.py`, which is not part of the embedded sources; only its
interface is specified).  Per the spec, `cast` coerces a sloppy value "via
that parameter's `cast`", "mostly useful for int/float": the value is
coerced to the parameter's declared type.  Values that Python's coercion
would reject (e.g. `int(None)`) are passed through unchanged to keep the
model total; such inputs are outside the validated domain. -/
def castValue : ParameterType → Value → Value
  | .int, .int n => .int n
  | .int, .float q => .int (ratTrunc q)
  | .int, .bool b => .int (if b then 1 else 0)
  | .int, v => v
  | .float, .int n => .float (n : Rat)
  | .float, .float q => .float q
  | .float, .bool b => .float (if b then 1 else 0)
  | .float, v => v
  | .bool, .bool b => .bool b
  | .bool, .int n => .bool (n != 0)
  | .bool, .float q => .bool (q != 0)
  | .bool, .str s => .bool (s != "")
  | .bool, .none => .bool false
  | .string, .str s => .str s
  | .string, .int n => .str (toString n)
  | .string, .float q => .str (toString q.num ++ "/" ++ toString q.den)
  | .string, .bool b => .str (if b then "True" else "False")
  | .string, .none => .str "None"

/-- Python `float(value)` as used by `check_membership` when building the
numeric parameter dictionary.  Strings and `None` (which Python would
reject with an exception) map to `0`; they are outside the domain that a
numeric parameter's `validate` accepts. -/
def pyFloat : Value → Rat
  | .none => 0
  | .int n => (n : Rat)
  | .float q => q
  | .str _ => 0
  | .bool b => if b then 1 else 0

/-- A parameter of the search space.  `uid` models Python object identity
(two distinct objects may be attribute-equal); `dependents` is the
hierarchical metadata: a mapping from (string rendering of) a trigger
value to the names of the parameters active under it.  `domain` stands for
the parameter's domain attributes (bounds or value list), compared by
value equality; `validate` is the externally specified domain predicate. -/
structure Parameter where
  uid : Nat
  name : String
  parameterType : ParameterType
  dependents : List (String × List String)
  domain : List Value
  validate : Value → Bool

/-- `Parameter.is_numeric`: the parameter type is INT or FLOAT. -/
def Parameter.isNumeric (p : Parameter) : Bool :=
  match p.parameterType with
  | .int => true
  | .float => true
  | _ => false

/-- `Parameter.is_hierarchical`: the parameter declares dependents. -/
def Parameter.isHierarchical (p : Parameter) : Bool :=
  !p.dependents.isEmpty

/-- All dependent names of a parameter, over every trigger value
(`for deps in parameter.dependents.values() for name in deps`). -/
def flatDeps (p : Parameter) : List String :=
  (p.dependents.map (·.2)).flatten

/-- Python value equality of parameters (`Base.__eq__` compares the
attributes of the object, never its identity): `uid` is ignored. -/
def paramEq (p q : Parameter) : Bool :=
  decide (p.name = q.name ∧ p.parameterType = q.parameterType ∧
    p.dependents = q.dependents ∧ p.domain = q.domain)

/-- `Parameter.clone()`: a fresh object (new identity) with the same
attributes. -/
def cloneParam (p : Parameter) : Parameter :=
  { p with uid := p.uid + 1 }

/-- A numeric parameterization, as passed to `ParameterConstraint.check`. -/
abbrev NumDict := List (String × Rat)

/-- Parameter constraints.  `order` and `sum` are the structural
constraints holding direct `Parameter` references; `generic` is the plain
`ParameterConstraint` holding a name-to-coefficient dictionary.  The
`check` predicate itself is external (`ax/core/parameter_constraint.py`),
so it is carried as an opaque function field. -/
inductive ParameterConstraint where
  | order (lower upper : Parameter) (check : NumDict → Bool)
  | sum (params : List Parameter) (check : NumDict → Bool)
  | generic (constraintDict : NumDict) (check : NumDict → Bool)

/-- `constraint.parameters` of a structural constraint. -/
def PCparameters : ParameterConstraint → List Parameter
  | .order l u _ => [l, u]
  | .sum ps _ => ps
  | .generic _ _ => []

/-- `constraint.check(values)`. -/
def PCcheck : ParameterConstraint → NumDict → Bool
  | .order _ _ c => c
  | .sum _ c => c
  | .generic _ c => c

/-- `ParameterConstraint.clone()`: structural constraints clone their
referenced parameters. -/
def cloneConstraint : ParameterConstraint → ParameterConstraint
  | .order l u c => .order (cloneParam l) (cloneParam u) c
  | .sum ps c => .sum (ps.map cloneParam) c
  | .generic d c => .generic d c

/-- An `Arm`: a parameterization plus an optional name. -/
structure Arm where
  parameters : List (String × Value)
  name : Option String
deriving DecidableEq

/-- The Python exceptions raised by `search_space.py`, as structured
errors.  `invalidDesign` is the failure class named by the specification
for duplicate parameter names; it is listed so that statements about it
can be expressed, but no operation of this module produces it. -/
inductive Err where
  | dupParamNames
  | unknownConstraintParam (name : String)
  | constraintParamMismatch (name : String)
  | paramNotInSpace (name : String)
  | unknownArmParam (name : String)
  | invalidArmValue (name : String)
  | noUniqueRoot (candidates : Finset String)
  | sharedSubtreeParams (shared : Finset String)
  | unreachableParams (names : Finset String)
  | stopIteration
  | recursionError
  | keyError (name : String)
  | notImplemented
  | attributeError
  | invalidDesign
deriving DecidableEq

instance {α : Type} [DecidableEq α] : DecidableEq (Except Err α) := fun a b =>
  match a, b with
  | .ok x, .ok y =>
    if h : x = y then isTrue (by rw [h])
    else isFalse (by intro hc; cases hc; exact h rfl)
  | .error e, .error f =>
    if h : e = f then isTrue (by rw [h])
    else isFalse (by intro hc; cases hc; exact h rfl)
  | .ok _, .error _ => isFalse (by intro hc; cases hc)
  | .error _, .ok _ => isFalse (by intro hc; cases hc)

/-- `SearchSpace` state: the name-keyed parameter dictionary (an
insertion-ordered association list) and the constraint list. -/
structure SearchSpace where
  parameters : List (String × Parameter)
  parameterConstraints : List ParameterConstraint

/-- `self._parameters[name]` lookup returning `Option`. -/
def lookupParam (s : SearchSpace) (n : String) : Option Parameter :=
  (s.parameters.find? (fun e => e.1 == n)).map (·.2)

/-- `SearchSpace.__getitem__`: raises `ValueError` for an unknown name. -/
def getParamE (s : SearchSpace) (n : String) : Except Err Parameter :=
  match lookupParam s n with
  | some p => .ok p
  | none => .error (.paramNotInSpace n)

/-- The loop of `_validate_parameter_constraints` over a structural
constraint's parameters: each must exist in the space and be
value-equal to the space's own definition. -/
def checkParamsInSpace (s : SearchSpace) : List Parameter → Except Err Unit
  | [] => .ok ()
  | p :: ps =>
    match lookupParam s p.name with
    | Option.none => .error (.unknownConstraintParam p.name)
    | some q =>
      if paramEq p q then checkParamsInSpace s ps
      else .error (.constraintParamMismatch p.name)

/-- The loop of `_validate_parameter_constraints` over a generic
constraint's `constraint_dict` keys: each must exist in the space. -/
def checkNamesInSpace (s : SearchSpace) : List String → Except Err Unit
  | [] => .ok ()
  | n :: ns =>
    match lookupParam s n with
    | Option.none => .error (.unknownConstraintParam n)
    | some _ => checkNamesInSpace s ns

/-- The body of the `_validate_parameter_constraints` loop for one
constraint: structural constraints (order/sum) check their parameter
list, generic constraints check their `constraint_dict` keys. -/
def validateOneConstraint (s : SearchSpace) (c : ParameterConstraint) :
    Except Err Unit :=
  match c with
  | .order .. => checkParamsInSpace s (PCparameters c)
  | .sum .. => checkParamsInSpace s (PCparameters c)
  | .generic d _ => checkNamesInSpace s (d.map Prod.fst)

/-- `SearchSpace._validate_parameter_constraints`. -/
def validateParameterConstraints (s : SearchSpace) :
    List ParameterConstraint → Except Err Unit
  | [] => .ok ()
  | c :: cs =>
    match validateOneConstraint s c with
    | .error e => .error e
    | .ok _ => validateParameterConstraints s cs

/-- The rebinding loop of `set_parameter_constraints`: each structural
constraint's parameter references are replaced by the space's own stored
instances for the matching names (the lookup cannot miss after
validation; `getD` keeps the function total). -/
def rebindConstraint (s : SearchSpace) : ParameterConstraint → ParameterConstraint
  | .order l u c =>
    .order ((lookupParam s l.name).getD l) ((lookupParam s u.name).getD u) c
  | .sum ps c => .sum (ps.map (fun p => (lookupParam s p.name).getD p)) c
  | .generic d c => .generic d c

/-- `SearchSpace.set_parameter_constraints`: validate every constraint,
then rebind, then replace the stored list.  The result pairs the
post-state with the outcome, so the mutation order is observable. -/
def setParameterConstraints (s : SearchSpace) (cs : List ParameterConstraint) :
    SearchSpace × Except Err Unit :=
  match validateParameterConstraints s cs with
  | .error e => (s, .error e)
  | .ok _ => ({ s with parameterConstraints := cs.map (rebindConstraint s) }, .ok ())

/-- `SearchSpace.add_parameter_constraints`: validate, then extend the
stored list with the given constraints.  (The source extends with the raw
constraints; it does not rebind them.) -/
def addParameterConstraints (s : SearchSpace) (cs : List ParameterConstraint) :
    SearchSpace × Except Err Unit :=
  match validateParameterConstraints s cs with
  | .error e => (s, .error e)
  | .ok _ => ({ s with parameterConstraints := s.parameterConstraints ++ cs }, .ok ())

/-- `SearchSpace.__init__`: fail with `ValueError` when a parameter name
repeats (`len({p.name for p in parameters}) < len(parameters)`), then
store the name-keyed dictionary and install the constraints through
`set_parameter_constraints`. -/
def mkSearchSpace (ps : List Parameter) (cs : List ParameterConstraint) :
    Except Err SearchSpace :=
  if (ps.map (·.name)).dedup.length < ps.length then .error .dupParamNames
  else
    match setParameterConstraints ⟨ps.map (fun p => (p.name, p)), []⟩ cs with
    | (s1, .ok _) => .ok s1
    | (_, .error e) => .error e

/-- The numeric sub-dictionary built by `check_membership`: the entries of
the parameterization whose parameter `is_numeric`, values coerced through
`float()`. -/
def numericalParamDict (s : SearchSpace) (p : List (String × Value)) : NumDict :=
  p.filterMap (fun nv =>
    match lookupParam s nv.1 with
    | some par => if par.isNumeric then some (nv.1, pyFloat nv.2) else Option.none
    | Option.none => Option.none)

/-- `SearchSpace.check_membership` with `raise_error=False`. -/
def checkMembership (s : SearchSpace) (p : List (String × Value)) : Bool :=
  if p.length ≠ s.parameters.length then false
  else if !(p.all (fun nv =>
      match lookupParam s nv.1 with
      | Option.none => false
      | some par => par.validate nv.2)) then false
  else s.parameterConstraints.all (fun c => PCcheck c (numericalParamDict s p))

/-- Python `dict.update`: entries of `base` whose key occurs in `overlay`
take the overlay value; overlay entries with fresh keys are appended. -/
def dictUpdate (base overlay : List (String × Value)) : List (String × Value) :=
  (base.map (fun e =>
    match overlay.find? (fun o => o.1 == e.1) with
    | some o => (e.1, o.2)
    | Option.none => e)) ++
  overlay.filter (fun o => !(base.any (fun e => e.1 == o.1)))

/-- The validation loop of `construct_arm` over the supplied parameters:
the name must exist in the space and a non-`None` value must pass the
parameter's `validate`. -/
def validateArmParams (s : SearchSpace) : List (String × Value) → Except Err Unit
  | [] => .ok ()
  | nv :: rest =>
    match lookupParam s nv.1 with
    | Option.none => .error (.unknownArmParam nv.1)
    | some par =>
      if nv.2 ≠ Value.none ∧ par.validate nv.2 = false then
        .error (.invalidArmValue nv.1)
      else validateArmParams s rest

/-- `SearchSpace.construct_arm`: start from every space parameter mapped
to `None`, validate the supplied overrides, overlay them. -/
def constructArm (s : SearchSpace) :
    Option (List (String × Value)) → Option String → Except Err Arm
  | Option.none, name =>
    .ok ⟨s.parameters.map (fun e => (e.1, Value.none)), name⟩
  | some ps, name =>
    match validateArmParams s ps with
    | .error e => .error e
    | .ok _ =>
      .ok ⟨dictUpdate (s.parameters.map (fun e => (e.1, Value.none))) ps, name⟩

/-- `SearchSpace.out_of_design_arm`: `construct_arm()` with no overrides. -/
def outOfDesignArm (s : SearchSpace) : Except Err Arm :=
  constructArm s Option.none Option.none

/-- The body of the `cast_arm` loop for one entry: an unknown name passes
its raw value through; a known name coerces through the parameter's
`cast`. -/
def castEntry (s : SearchSpace) (nv : String × Value) : String × Value :=
  match lookupParam s nv.1 with
  | Option.none => nv
  | some par => (nv.1, castValue par.parameterType nv.2)

/-- `SearchSpace.cast_arm` (base class): builds a new arm by casting every
entry, keeping the arm's name (`arm.name if arm.has_name else None`). -/
def castArm (s : SearchSpace) (arm : Arm) : Arm :=
  ⟨arm.parameters.map (castEntry s), arm.name⟩

/-- `SearchSpace.clone`: rebuild a (base) `SearchSpace` from cloned
parameters and cloned constraints via the ordinary constructor. -/
def cloneSearchSpace (s : SearchSpace) : Except Err SearchSpace :=
  mkSearchSpace (s.parameters.map (fun e => cloneParam e.2))
    (s.parameterConstraints.map cloneConstraint)

/-- The set of names appearing in any hierarchical parameter's
`dependents` lists, as collected by `_find_root`. -/
def dependentNames (s : SearchSpace) : Finset String :=
  s.parameters.foldl
    (fun acc e =>
      if e.2.isHierarchical then acc ∪ (flatDeps e.2).toFinset else acc) ∅

/-- `HierarchicalSearchSpace._find_root`: the names of the space minus the
dependent names must leave exactly one candidate, which is looked up in
the parameter dictionary; otherwise a `NotImplementedError` is raised. -/
def findRoot (s : SearchSpace) (allNames : Finset String) : Except Err Parameter :=
  if h : (allNames \ dependentNames s).card = 1 then
    match lookupParam s ((allNames \ dependentNames s).min'
        (Finset.card_pos.mp (by rw [h]; exact Nat.one_pos))) with
    | some p => .ok p
    | Option.none => .error (.keyError ((allNames \ dependentNames s).min'
        (Finset.card_pos.mp (by rw [h]; exact Nat.one_pos))))
  else .error (.noUniqueRoot (allNames \ dependentNames s))

/-- `_disjoint_union`: fail (with the intersection) unless the two visited
sets are disjoint, else return their union. -/
def du (set1 set2 : Finset String) : Except Err (Finset String) :=
  if set1 ∩ set2 = ∅ then .ok (set1 ∪ set2)
  else .error (.sharedSubtreeParams (set1 ∩ set2))

/-- The `reduce(_disjoint_union, subtrees, first)` fold of
`_check_subtree`: consume each subtree result, checking disjointness of
the accumulated visited set against it. -/
def duFold : Finset String → List (Except Err (Finset String)) →
    Except Err (Finset String)
  | acc, [] => .ok acc
  | _, (.error e) :: _ => .error e
  | acc, (.ok s2) :: rs =>
    match du acc s2 with
    | .error e => .error e
    | .ok acc2 => duFold acc2 rs

/-- `_check_subtree`, with explicit recursion fuel.  A leaf
(non-hierarchical parameter) visits only itself; a hierarchical node
recursively checks the subtree under every dependent name (an unknown
name raises through `__getitem__`) and folds the visited sets with the
disjoint union.  Fuel exhaustion models Python's `RecursionError` on a
cyclic dependent graph, and `stopIteration` models the `next()` call on
an empty generator when every dependents list is empty. -/
def checkSubtree (s : SearchSpace) : Nat → Parameter → Except Err (Finset String)
  | 0, _ => .error .recursionError
  | fuel + 1, root =>
    if root.isHierarchical then
      match (flatDeps root).map (fun n =>
          (match getParamE s n with
           | .error e => .error e
           | .ok p => checkSubtree s fuel p : Except Err (Finset String))) with
      | [] => .error .stopIteration
      | r :: rs =>
        match r with
        | .error e => .error e
        | .ok s1 =>
          match duFold s1 rs with
          | .error e => .error e
          | .ok u => .ok (insert root.name u)
    else .ok {root.name}

/-- The per-child results of `_check_subtree` at a hierarchical node, in
dependent order. -/
def childResults (s : SearchSpace) (fuel : Nat) (root : Parameter) :
    List (Except Err (Finset String)) :=
  (flatDeps root).map (fun n =>
    (match getParamE s n with
     | .error e => .error e
     | .ok p => checkSubtree s fuel p : Except Err (Finset String)))

/-- `HierarchicalSearchSpace._validate_hierarchical_structure`: check the
root's subtree, then require every recorded parameter name to have been
visited; the failure names the unreachable set.  The fuel
`s.parameters.length + 1` suffices for every acyclic dependent graph. -/
def validateHierarchicalStructure (s : SearchSpace) (allN : Finset String)
    (root : Parameter) : Except Err Unit :=
  match checkSubtree s (s.parameters.length + 1) root with
  | .error e => .error e
  | .ok visited =>
    if allN \ visited = ∅ then .ok ()
    else .error (.unreachableParams (allN \ visited))

/-- `HierarchicalSearchSpace` additional state: the underlying space, the
name snapshot and the discovered root. -/
structure HierarchicalSearchSpace where
  toSearchSpace : SearchSpace
  allParameterNames : Finset String
  root : Parameter

/-- `HierarchicalSearchSpace.__init__`: base construction, name snapshot,
root discovery, tree validation. -/
def mkHierarchicalSearchSpace (ps : List Parameter)
    (cs : List ParameterConstraint) : Except Err HierarchicalSearchSpace :=
  match mkSearchSpace ps cs with
  | .error e => .error e
  | .ok s =>
    match findRoot s ((s.parameters.map (·.1)).toFinset) with
    | .error e => .error e
    | .ok root =>
      match validateHierarchicalStructure s ((s.parameters.map (·.1)).toFinset)
          root with
      | .error e => .error e
      | .ok _ => .ok ⟨s, (s.parameters.map (·.1)).toFinset, root⟩

/-- The dependent-name set computed directly from an input parameter list
(the same fold `_find_root` performs over the stored dictionary). -/
def dependentNamesL (ps : List Parameter) : Finset String :=
  ps.foldl
    (fun acc p => if p.isHierarchical then acc ∪ (flatDeps p).toFinset else acc) ∅

/-- The root candidates of an input parameter list: its names minus every
name mentioned as a dependent. -/
def rootCandidates (ps : List Parameter) : Finset String :=
  (ps.map (·.name)).toFinset \ dependentNamesL ps

/-- The accumulated-disjointness invariant established by `duFold`: each
set is disjoint from the union of the accumulator and all earlier sets. -/
def chainDisjoint : Finset String → List (Finset String) → Prop
  | _, [] => True
  | acc, t :: ts => Disjoint acc t ∧ chainDisjoint (acc ∪ t) ts

/-- A runtime search-space object, tagged with its dynamic class.  Method
dispatch follows Python's method resolution order: `clone` is defined only
on the base class (and always constructs a base `SearchSpace`), while
`flatten` and `cast_arm` are overridden by `HierarchicalSearchSpace` with
`NotImplementedError` stubs (`flatten` does not exist at all on the base
class, so calling it there is an `AttributeError`). -/
inductive AnySearchSpace where
  | base (s : SearchSpace)
  | hierarchical (h : HierarchicalSearchSpace)

/-- The underlying `SearchSpace` state of a runtime object. -/
def AnySearchSpace.toSS : AnySearchSpace → SearchSpace
  | .base s => s
  | .hierarchical h => h.toSearchSpace

/-- `clone()` on a runtime object: the base-class method runs for both
classes and rebuilds a plain base `SearchSpace`. -/
def cloneObj (o : AnySearchSpace) : Except Err AnySearchSpace :=
  match cloneSearchSpace o.toSS with
  | .error e => .error e
  | .ok s => .ok (.base s)

/-- `flatten()` on a runtime object: `NotImplementedError` on a
hierarchical space; no such method exists on the base class. -/
def flattenObj : AnySearchSpace → Except Err SearchSpace
  | .base _ => .error .attributeError
  | .hierarchical _ => .error .notImplemented

/-- `cast_arm(arm)` on a runtime object: the hierarchical override raises
`NotImplementedError`; the base class casts. -/
def castArmObj : AnySearchSpace → Arm → Except Err Arm
  | .base s, arm => .ok (castArm s arm)
  | .hierarchical _, _ => .error .notImplemented

/-- The root recorded on a runtime object: only hierarchical spaces have
one. -/
def rootOf : AnySearchSpace → Option Parameter
  | .base _ => Option.none
  | .hierarchical h => some h.root

/-- Well-formedness of the stored parameter dictionary: every entry is
keyed by its parameter's name.  The constructor establishes this. -/
def WFspace (s : SearchSpace) : Prop :=
  ∀ e ∈ s.parameters, e.1 = e.2.name

/-- The set of parameter names of a space. -/
def namesFinset (s : SearchSpace) : Finset String :=
  (s.parameters.map (·.1)).toFinset

/-! ### Basic lemmas about lookups and construction -/

lemma lookupParam_congr {s t : SearchSpace} (h : s.parameters = t.parameters)
    (n : String) : lookupParam s n = lookupParam t n := by
  simp [lookupParam, h]

lemma lookupParam_mem {s : SearchSpace} {n : String} {q : Parameter}
    (h : lookupParam s n = some q) : (n, q) ∈ s.parameters := by
  simp only [lookupParam, Option.map_eq_some'] at h
  obtain ⟨e, he, hq⟩ := h
  have hmem := List.mem_of_find?_eq_some he
  have hpred := List.find?_some he
  simp only [beq_iff_eq] at hpred
  have : e = (n, q) := by
    cases e; simp_all
  simpa [this] using hmem

lemma lookupParam_isSome_iff {s : SearchSpace} {n : String} :
    (lookupParam s n).isSome ↔ n ∈ s.parameters.map (·.1) := by
  simp only [lookupParam, Option.isSome_map', List.find?_isSome, List.mem_map]
  constructor
  · rintro ⟨e, he, hp⟩
    exact ⟨e, he, by simpa [eq_comm] using (beq_iff_eq.mp hp)⟩
  · rintro ⟨e, he, hp⟩
    exact ⟨e, he, by simp [hp]⟩

lemma lookupParam_name {s : SearchSpace} (hwf : WFspace s) {n : String}
    {q : Parameter} (h : lookupParam s n = some q) : q.name = n := by
  have hmem := lookupParam_mem h
  simpa using (hwf (n, q) hmem).symm

lemma paramEq_refl (p : Parameter) : paramEq p p = true := by
  simp [paramEq]

lemma paramEq_clone (p q : Parameter) :
    paramEq (cloneParam p) (cloneParam q) = paramEq p q := by
  simp [paramEq, cloneParam]

lemma cloneParam_name (p : Parameter) : (cloneParam p).name = p.name := rfl

/-- Unpacking a successful `SearchSpace` construction: the stored
dictionary, the fact that validation of the constraints succeeded for the
pre-constraint state, and the stored (rebound) constraints. -/
lemma mkSearchSpace_ok {ps : List Parameter} {cs : List ParameterConstraint}
    {s : SearchSpace} (h : mkSearchSpace ps cs = .ok s) :
    s.parameters = ps.map (fun p => (p.name, p)) ∧
    validateParameterConstraints ⟨ps.map (fun p => (p.name, p)), []⟩ cs = .ok () ∧
    s.parameterConstraints =
      cs.map (rebindConstraint ⟨ps.map (fun p => (p.name, p)), []⟩) := by
  unfold mkSearchSpace at h
  split at h
  · exact absurd h (by simp)
  · rw [setParameterConstraints] at h
    cases hv : validateParameterConstraints ⟨ps.map (fun p => (p.name, p)), []⟩ cs with
    | error e => rw [hv] at h; simp at h
    | ok u =>
      cases u
      rw [hv] at h
      simp only [] at h
      cases h
      exact ⟨rfl, rfl, rfl⟩

lemma mkSearchSpace_ok_nodup {ps : List Parameter} {cs : List ParameterConstraint}
    {s : SearchSpace} (h : mkSearchSpace ps cs = .ok s) :
    (ps.map (·.name)).Nodup := by
  unfold mkSearchSpace at h
  split at h
  · exact absurd h (by simp)
  next hlt =>
    by_contra hnd
    apply hlt
    have hsub : List.Sublist ((ps.map (·.name)).dedup) (ps.map (·.name)) :=
      List.dedup_sublist _
    have hle := hsub.length_le
    have hne : (ps.map (·.name)).dedup ≠ ps.map (·.name) := by
      intro he
      exact hnd (List.dedup_eq_self.mp he)
    have : (ps.map (·.name)).dedup.length ≠ (ps.map (·.name)).length := by
      intro hl
      exact hne (hsub.eq_of_length hl)
    simp only [List.length_map] at *
    omega

lemma mkSearchSpace_ok_wf {ps : List Parameter} {cs : List ParameterConstraint}
    {s : SearchSpace} (h : mkSearchSpace ps cs = .ok s) : WFspace s := by
  intro e he
  rw [(mkSearchSpace_ok h).1] at he
  simp only [List.mem_map] at he
  obtain ⟨p, _, rfl⟩ := he
  rfl

lemma mkSearchSpace_nodup_ok (ps : List Parameter)
    (hnd : (ps.map (·.name)).Nodup) :
    mkSearchSpace ps [] = .ok ⟨ps.map (fun p => (p.name, p)), []⟩ := by
  unfold mkSearchSpace
  rw [if_neg, show setParameterConstraints ⟨ps.map (fun p => (p.name, p)), []⟩ []
      = (⟨ps.map (fun p => (p.name, p)), []⟩, .ok ()) from rfl]
  rw [List.dedup_eq_self.mpr hnd]
  simp

lemma validateParameterConstraints_ok_iff {s : SearchSpace}
    {cs : List ParameterConstraint} :
    validateParameterConstraints s cs = .ok () ↔
      ∀ c ∈ cs, validateOneConstraint s c = .ok () := by
  induction cs with
  | nil => simp [validateParameterConstraints]
  | cons c cs ih =>
    simp only [validateParameterConstraints]
    constructor
    · intro h
      split at h
      · exact absurd h (by simp)
      next hok =>
        intro c' hc'
        rcases List.mem_cons.mp hc' with rfl | hmem
        · cases heq : validateOneConstraint s c' with
          | ok u => cases u; rfl
          | error e => rw [heq] at hok; cases hok
        · exact ih.mp h c' hmem
    · intro h
      rw [h c (by simp)]
      exact ih.mpr (fun c' hc' => h c' (List.mem_cons_of_mem _ hc'))

lemma checkParamsInSpace_ok_iff {s : SearchSpace} {L : List Parameter} :
    checkParamsInSpace s L = .ok () ↔
      ∀ p ∈ L, ∃ q, lookupParam s p.name = some q ∧ paramEq p q = true := by
  induction L with
  | nil => simp [checkParamsInSpace]
  | cons p L ih =>
    constructor
    · intro h
      simp only [checkParamsInSpace] at h
      split at h
      · cases h
      next q hl =>
        split at h
        next hpe =>
          intro p' hp'
          rcases List.mem_cons.mp hp' with rfl | hmem
          · exact ⟨q, hl, hpe⟩
          · exact ih.mp h p' hmem
        · cases h
    · intro h
      obtain ⟨q, hl, hpe⟩ := h p (by simp)
      have hrest : checkParamsInSpace s L = .ok () :=
        ih.mpr (fun p' hp' => h p' (List.mem_cons_of_mem _ hp'))
      simp only [checkParamsInSpace]
      rw [hl]
      simp [hpe, hrest]

lemma checkNamesInSpace_ok_iff {s : SearchSpace} {L : List String} :
    checkNamesInSpace s L = .ok () ↔
      ∀ n ∈ L, (lookupParam s n).isSome := by
  induction L with
  | nil => simp [checkNamesInSpace]
  | cons n L ih =>
    constructor
    · intro h
      simp only [checkNamesInSpace] at h
      split at h
      · cases h
      next q hl =>
        intro n' hn'
        rcases List.mem_cons.mp hn' with rfl | hmem
        · simp [hl]
        · exact ih.mp h n' hmem
    · intro h
      have hn := h n (by simp)
      have hrest : checkNamesInSpace s L = .ok () :=
        ih.mpr (fun n' hn' => h n' (List.mem_cons_of_mem _ hn'))
      simp only [checkNamesInSpace]
      cases hl : lookupParam s n with
      | none => rw [hl] at hn; cases hn
      | some q => simpa using hrest

/-! ### Constraint installation lemmas -/

lemma setParameterConstraints_error {s : SearchSpace}
    {cs : List ParameterConstraint} {e : Err}
    (h : (setParameterConstraints s cs).2 = .error e) :
    (setParameterConstraints s cs).1 = s := by
  unfold setParameterConstraints at *
  split at h
  · rfl
  · cases h

lemma setParameterConstraints_ok_spec {s : SearchSpace}
    {cs : List ParameterConstraint}
    (h : (setParameterConstraints s cs).2 = .ok ()) :
    validateParameterConstraints s cs = .ok () ∧
    (setParameterConstraints s cs).1 =
      { s with parameterConstraints := cs.map (rebindConstraint s) } := by
  unfold setParameterConstraints at *
  cases hv : validateParameterConstraints s cs with
  | error e => rw [hv] at h; cases h
  | ok u => cases u; exact ⟨rfl, rfl⟩

lemma addParameterConstraints_ok_spec {s : SearchSpace}
    {cs : List ParameterConstraint}
    (h : (addParameterConstraints s cs).2 = .ok ()) :
    validateParameterConstraints s cs = .ok () ∧
    (addParameterConstraints s cs).1 =
      { s with parameterConstraints := s.parameterConstraints ++ cs } := by
  unfold addParameterConstraints at *
  cases hv : validateParameterConstraints s cs with
  | error e => rw [hv] at h; cases h
  | ok u => cases u; exact ⟨rfl, rfl⟩

/-- The invariant a successfully installed constraint satisfies: every
structural reference *is* the space's stored instance under its name, and
every name of a generic constraint's dictionary is present. -/
def reboundInvariant (s : SearchSpace) : ParameterConstraint → Prop
  | .order l u _ => lookupParam s l.name = some l ∧ lookupParam s u.name = some u
  | .sum ps _ => ∀ p ∈ ps, lookupParam s p.name = some p
  | .generic d _ => ∀ nv ∈ d, (lookupParam s nv.1).isSome

lemma reboundInvariant_congr {s t : SearchSpace}
    (h : s.parameters = t.parameters) {c : ParameterConstraint}
    (hc : reboundInvariant s c) : reboundInvariant t c := by
  cases c with
  | order l u chk =>
    exact ⟨(lookupParam_congr h _) ▸ hc.1, (lookupParam_congr h _) ▸ hc.2⟩
  | sum ps chk =>
    intro p hp
    exact (lookupParam_congr h _) ▸ hc p hp
  | generic d chk =>
    intro nv hnv
    exact (lookupParam_congr h _) ▸ hc nv hnv

lemma rebind_invariant {s : SearchSpace} (hwf : WFspace s)
    {c : ParameterConstraint} (hc : validateOneConstraint s c = .ok ()) :
    reboundInvariant s (rebindConstraint s c) := by
  cases c with
  | order l u chk =>
    have hall := checkParamsInSpace_ok_iff.mp hc
    obtain ⟨ql, hql, -⟩ := hall l (by simp [PCparameters])
    obtain ⟨qu, hqu, -⟩ := hall u (by simp [PCparameters])
    simp only [rebindConstraint, reboundInvariant, hql, hqu, Option.getD_some]
    exact ⟨by rw [lookupParam_name hwf hql]; exact hql,
           by rw [lookupParam_name hwf hqu]; exact hqu⟩
  | sum ps chk =>
    have hall := checkParamsInSpace_ok_iff.mp hc
    simp only [rebindConstraint, reboundInvariant]
    intro p' hp'
    simp only [List.mem_map] at hp'
    obtain ⟨p, hp, rfl⟩ := hp'
    obtain ⟨q, hq, -⟩ := hall p (by simpa [PCparameters] using hp)
    rw [hq, Option.getD_some, lookupParam_name hwf hq]
    exact hq
  | generic d chk =>
    simp only [rebindConstraint, reboundInvariant]
    intro nv hnv
    exact checkNamesInSpace_ok_iff.mp hc nv.1 (List.mem_map.mpr ⟨nv, hnv, rfl⟩)

/-- After a successful `set_parameter_constraints`, every installed
constraint satisfies the rebound invariant in the post-state. -/
lemma setParameterConstraints_rebound {s : SearchSpace}
    {cs : List ParameterConstraint} (hwf : WFspace s)
    (h : (setParameterConstraints s cs).2 = .ok ()) :
    ∀ c ∈ (setParameterConstraints s cs).1.parameterConstraints,
      reboundInvariant (setParameterConstraints s cs).1 c := by
  obtain ⟨hv, hs⟩ := setParameterConstraints_ok_spec h
  intro c hc
  rw [hs] at hc
  simp only [List.mem_map] at hc
  obtain ⟨c0, hc0, rfl⟩ := hc
  have hone := validateParameterConstraints_ok_iff.mp hv c0 hc0
  exact reboundInvariant_congr (by rw [hs]) (rebind_invariant hwf hone)

/-- Every constraint stored by a successful construction satisfies the
rebound invariant. -/
lemma mkSearchSpace_ok_rebound {ps : List Parameter}
    {cs : List ParameterConstraint} {s : SearchSpace}
    (h : mkSearchSpace ps cs = .ok s) :
    ∀ c ∈ s.parameterConstraints, reboundInvariant s c := by
  obtain ⟨hp, hv, hc⟩ := mkSearchSpace_ok h
  intro c hcm
  rw [hc] at hcm
  simp only [List.mem_map] at hcm
  obtain ⟨c0, hc0, rfl⟩ := hcm
  have hwf0 : WFspace ⟨ps.map (fun p => (p.name, p)), []⟩ := by
    intro e he
    simp only [List.mem_map] at he
    obtain ⟨p, _, rfl⟩ := he
    rfl
  have hone := validateParameterConstraints_ok_iff.mp hv c0 hc0
  exact reboundInvariant_congr (by rw [hp]) (rebind_invariant hwf0 hone)

/-! ### Hierarchical structure lemmas -/

lemma mem_foldl_union {l : List (Finset String)} {init : Finset String}
    {x : String} :
    x ∈ l.foldl (· ∪ ·) init ↔ x ∈ init ∨ ∃ t ∈ l, x ∈ t := by
  induction l generalizing init with
  | nil => simp
  | cons t l ih =>
    simp only [List.foldl_cons, ih, Finset.mem_union, List.mem_cons]
    constructor
    · rintro ((hx | hx) | ⟨u, hu, hx⟩)
      · exact Or.inl hx
      · exact Or.inr ⟨t, Or.inl rfl, hx⟩
      · exact Or.inr ⟨u, Or.inr hu, hx⟩
    · rintro (hx | ⟨u, (rfl | hu), hx⟩)
      · exact Or.inl (Or.inl hx)
      · exact Or.inl (Or.inr hx)
      · exact Or.inr ⟨u, hu, hx⟩

lemma dependentNames_eq (ps : List Parameter) (C : List ParameterConstraint) :
    dependentNames ⟨ps.map (fun p => (p.name, p)), C⟩ = dependentNamesL ps := by
  simp only [dependentNames, dependentNamesL, List.foldl_map]

lemma mem_dependentNamesL {ps : List Parameter} {x : String} :
    x ∈ dependentNamesL ps ↔
      ∃ p ∈ ps, p.isHierarchical = true ∧ x ∈ flatDeps p := by
  have key : ∀ (init : Finset String),
      x ∈ ps.foldl
        (fun acc p =>
          if p.isHierarchical then acc ∪ (flatDeps p).toFinset else acc) init ↔
      x ∈ init ∨ ∃ p ∈ ps, p.isHierarchical = true ∧ x ∈ flatDeps p := by
    induction ps with
    | nil => simp
    | cons p ps ih =>
      intro init
      simp only [List.foldl_cons, ih, List.mem_cons]
      by_cases hp : p.isHierarchical
      · simp only [hp, if_pos, Finset.mem_union, List.mem_toFinset]
        constructor
        · rintro ((hx | hx) | ⟨q, hq, hhq, hx⟩)
          · exact Or.inl hx
          · exact Or.inr ⟨p, Or.inl rfl, hp, hx⟩
          · exact Or.inr ⟨q, Or.inr hq, hhq, hx⟩
        · rintro (hx | ⟨q, (rfl | hq), hhq, hx⟩)
          · exact Or.inl (Or.inl hx)
          · exact Or.inl (Or.inr hx)
          · exact Or.inr ⟨q, hq, hhq, hx⟩
      · simp only [if_neg hp]
        constructor
        · rintro (hx | ⟨q, hq, hhq, hx⟩)
          · exact Or.inl hx
          · exact Or.inr ⟨q, Or.inr hq, hhq, hx⟩
        · rintro (hx | ⟨q, (rfl | hq), hhq, hx⟩)
          · exact Or.inl hx
          · exact absurd hhq (by simpa using hp)
          · exact Or.inr ⟨q, hq, hhq, hx⟩
  simpa using key ∅

lemma du_ok_iff {a b u : Finset String} :
    du a b = .ok u ↔ Disjoint a b ∧ u = a ∪ b := by
  unfold du
  split
  next hd =>
    simp only [Except.ok.injEq]
    rw [Finset.disjoint_iff_inter_eq_empty]
    constructor
    · intro h; exact ⟨hd, h.symm⟩
    · intro h; exact h.2.symm
  next hd =>
    constructor
    · intro h; cases h
    · intro h
      exact absurd (Finset.disjoint_iff_inter_eq_empty.mp h.1) hd

lemma du_not_disjoint {a b : Finset String} (h : ¬ Disjoint a b) :
    du a b = .error (.sharedSubtreeParams (a ∩ b)) ∧ (a ∩ b).Nonempty := by
  have hne : a ∩ b ≠ ∅ := by
    intro he
    exact h (Finset.disjoint_iff_inter_eq_empty.mpr he)
  refine ⟨?_, Finset.nonempty_iff_ne_empty.mpr hne⟩
  unfold du
  rw [if_neg hne]

/-- Success of the disjoint-union fold: every input is an `ok` set, the
chain-disjointness invariant holds, and the result is the accumulated
union. -/
lemma duFold_ok {rs : List (Except Err (Finset String))}
    {acc u : Finset String} (h : duFold acc rs = .ok u) :
    ∃ ss : List (Finset String), rs = ss.map Except.ok ∧
      chainDisjoint acc ss ∧ u = ss.foldl (· ∪ ·) acc := by
  induction rs generalizing acc with
  | nil =>
    refine ⟨[], rfl, trivial, ?_⟩
    unfold duFold at h
    cases h
    rfl
  | cons r rs ih =>
    cases r with
    | error e => unfold duFold at h; cases h
    | ok s2 =>
      unfold duFold at h
      cases hdu : du acc s2 with
      | error e => rw [hdu] at h; cases h
      | ok acc2 =>
        rw [hdu] at h
        obtain ⟨hd, rfl⟩ := du_ok_iff.mp hdu
        obtain ⟨ss, rfl, hc, hu⟩ := ih h
        exact ⟨s2 :: ss, rfl, ⟨hd, hc⟩, by simpa using hu⟩

/-- Failure of the disjoint-union fold on an all-`ok` input whose
chain-disjointness fails: the first offending set yields a
`sharedSubtreeParams` error naming a nonempty set of parameters, each of
which occurs both in that set and in the accumulator or an earlier set. -/
lemma duFold_not_chain {ss : List (Finset String)} :
    ∀ {acc : Finset String}, ¬ chainDisjoint acc ss →
    ∃ (j : Fin ss.length) (t : Finset String),
      duFold acc (ss.map Except.ok) = .error (.sharedSubtreeParams t) ∧
      t.Nonempty ∧ (∀ x ∈ t, x ∈ ss.get j) ∧
      (∀ x ∈ t, x ∈ acc ∨ ∃ i : Fin ss.length, i < j ∧ x ∈ ss.get i) := by
  induction ss with
  | nil => intro acc h; exact absurd trivial h
  | cons s ss ih =>
    intro acc h
    by_cases hd : Disjoint acc s
    · have hc : ¬ chainDisjoint (acc ∪ s) ss := by
        intro hc
        exact h ⟨hd, hc⟩
      obtain ⟨j, t, herr, hne, hj, hacc⟩ := ih hc
      refine ⟨j.succ, t, ?_, hne, ?_, ?_⟩
      · simp only [List.map_cons]
        unfold duFold
        rw [show du acc s = .ok (acc ∪ s) from
          du_ok_iff.mpr ⟨hd, rfl⟩]
        exact herr

      · intro x hx
        simpa using hj x hx
      · intro x hx
        rcases hacc x hx with hx' | ⟨i, hij, hx'⟩
        · rcases Finset.mem_union.mp hx' with hx'' | hx''
          · exact Or.inl hx''
          · refine Or.inr ⟨⟨0, by simp⟩, by simp, hx''⟩
        · refine Or.inr ⟨i.succ, by simpa using hij, by simpa using hx'⟩
    · obtain ⟨herr, hne⟩ := du_not_disjoint hd
      refine ⟨⟨0, by simp⟩, acc ∩ s, ?_, hne, ?_, ?_⟩
      · simp only [List.map_cons]
        unfold duFold
        rw [herr]

      · intro x hx
        simpa using (Finset.mem_inter.mp hx).2
      · intro x hx
        exact Or.inl (Finset.mem_inter.mp hx).1

/-- Chain disjointness of the fold implies pairwise disjointness of the
accumulator together with all sets. -/
lemma chainDisjoint_pairwise {ss : List (Finset String)} :
    ∀ {acc : Finset String}, chainDisjoint acc ss →
      List.Pairwise Disjoint (acc :: ss) := by
  induction ss with
  | nil => intro acc _; simp
  | cons s ss ih =>
    intro acc h
    obtain ⟨hd, hc⟩ := h
    have hrec := ih hc
    rcases List.pairwise_cons.mp hrec with ⟨hhead, htail⟩
    refine List.pairwise_cons.mpr ⟨?_, List.pairwise_cons.mpr ⟨?_, htail⟩⟩
    · intro t ht
      rcases List.mem_cons.mp ht with rfl | ht'
      · exact hd
      · exact Finset.disjoint_union_left.mp (hhead t ht') |>.1
    · intro t ht
      exact Finset.disjoint_union_left.mp (hhead t ht) |>.2

lemma pairwise_chainDisjoint {ss : List (Finset String)} {acc : Finset String}
    (h : List.Pairwise Disjoint (acc :: ss)) : chainDisjoint acc ss := by
  induction ss generalizing acc with
  | nil => trivial
  | cons s ss ih =>
    rcases List.pairwise_cons.mp h with ⟨hhead, htail⟩
    rcases List.pairwise_cons.mp htail with ⟨hhead', htail'⟩
    refine ⟨hhead s (by simp), ih ?_⟩
    refine List.pairwise_cons.mpr ⟨?_, htail'⟩
    intro t ht
    rw [Finset.disjoint_union_left]
    exact ⟨hhead t (List.mem_cons_of_mem _ ht), hhead' t ht⟩

/-- Unfolding equation of `checkSubtree` at positive fuel, phrased through
`childResults`. -/
lemma checkSubtree_succ (s : SearchSpace) (fuel : Nat) (root : Parameter) :
    checkSubtree s (fuel + 1) root =
      if root.isHierarchical then
        match childResults s fuel root with
        | [] => .error .stopIteration
        | r :: rs =>
          (match r with
           | .error e => .error e
           | .ok s1 =>
             (match duFold s1 rs with
              | .error e => .error e
              | .ok u => .ok (insert root.name u)))
      else .ok {root.name} := rfl

/-- An `ok` entry of `childResults` comes from a dependent name that is
present in the space and whose subtree check succeeded. -/
lemma childResults_ok_mem {s : SearchSpace} {fuel : Nat} {root : Parameter}
    {t : Finset String} (h : Except.ok t ∈ childResults s fuel root) :
    ∃ n ∈ flatDeps root, ∃ p,
      lookupParam s n = some p ∧ checkSubtree s fuel p = .ok t := by
  simp only [childResults, List.mem_map] at h
  obtain ⟨n, hn, he⟩ := h
  cases hg : getParamE s n with
  | error e => rw [hg] at he; cases he
  | ok p =>
    rw [hg] at he
    refine ⟨n, hn, p, ?_, he⟩
    unfold getParamE at hg
    cases hl : lookupParam s n with
    | none => rw [hl] at hg; cases hg
    | some q => rw [hl] at hg; cases hg; rfl

/-- Every visited set produced by `_check_subtree` is contained in the
root's name together with the names of the space. -/
lemma checkSubtree_subset {s : SearchSpace} (hwf : WFspace s) :
    ∀ {fuel : Nat} {root : Parameter} {v : Finset String},
      checkSubtree s fuel root = .ok v →
        v ⊆ insert root.name (namesFinset s) := by
  intro fuel
  induction fuel with
  | zero => intro root v h; cases h
  | succ fuel ih =>
    intro root v h
    rw [checkSubtree_succ] at h
    by_cases hh : root.isHierarchical
    · rw [if_pos hh] at h
      have hsub : ∀ t : Finset String, Except.ok t ∈ childResults s fuel root →
          t ⊆ namesFinset s := by
        intro t ht
        obtain ⟨n, hn, p, hl, hcs⟩ := childResults_ok_mem ht
        have hpn : p.name = n := lookupParam_name hwf hl
        have hnm : n ∈ namesFinset s := by
          simp only [namesFinset, List.mem_toFinset]
          exact lookupParam_isSome_iff.mp (by simp [hl])
        have := ih hcs
        rw [hpn] at this
        intro x hx
        rcases Finset.mem_insert.mp (this hx) with rfl | hx'
        · exact hnm
        · exact hx'
      cases hcr : childResults s fuel root with
      | nil => rw [hcr] at h; cases h
      | cons r rs =>
        rw [hcr] at h
        cases r with
        | error e => cases h
        | ok s1 =>
          simp only [] at h
          cases hdf : duFold s1 rs with
          | error e => rw [hdf] at h; cases h
          | ok u =>
            rw [hdf] at h
            cases h
            obtain ⟨ss, rfl, -, rfl⟩ := duFold_ok hdf
            intro x hx
            rcases Finset.mem_insert.mp hx with rfl | hx'
            · exact Finset.mem_insert_self _ _
            · rcases mem_foldl_union.mp hx' with hx1 | ⟨t, ht, hxt⟩
              · exact Finset.mem_insert_of_mem
                  (hsub s1 (by rw [hcr]; exact List.mem_cons_self _ _) hx1)
              · refine Finset.mem_insert_of_mem (hsub t ?_ hxt)
                rw [hcr]
                exact List.mem_cons_of_mem _ (by simpa using ht)
    · rw [if_neg hh] at h
      cases h
      intro x hx
      simp only [Finset.mem_singleton] at hx
      subst hx
      exact Finset.mem_insert_self _ _

/-! ### Casting and membership lemmas -/

lemma castValue_idem (t : ParameterType) (v : Value) :
    castValue t (castValue t v) = castValue t v := by
  cases t <;> cases v <;> simp [castValue]

lemma castEntry_idem (s : SearchSpace) (nv : String × Value) :
    castEntry s (castEntry s nv) = castEntry s nv := by
  cases hl : lookupParam s nv.1 with
  | none => simp [castEntry, hl]
  | some par => simp [castEntry, hl, castValue_idem]

lemma validate_entry_iff (s : SearchSpace) (nv : String × Value) :
    (match lookupParam s nv.1 with
     | Option.none => false
     | some par => par.validate nv.2) = true ↔
      ∃ par, lookupParam s nv.1 = some par ∧ par.validate nv.2 = true := by
  cases hl : lookupParam s nv.1 <;> simp [hl]

lemma checkMembership_eq_true_iff (s : SearchSpace) (p : List (String × Value)) :
    checkMembership s p = true ↔
      p.length = s.parameters.length ∧
      (p.all (fun nv =>
        match lookupParam s nv.1 with
        | Option.none => false
        | some par => par.validate nv.2)) = true ∧
      (s.parameterConstraints.all
        (fun c => PCcheck c (numericalParamDict s p))) = true := by
  unfold checkMembership
  split
  next h => simp [h]
  next h =>
    split
    next h2 =>
      rw [Bool.not_eq_true'] at h2
      simp [h2, not_ne_iff.mp h]
    next h2 =>
      rw [Bool.not_eq_true'] at h2
      rw [Bool.not_eq_false] at h2
      simp [h2, not_ne_iff.mp h]

/-! ### Arm construction lemmas -/

lemma validateArmParams_ok {s : SearchSpace} {ps : List (String × Value)}
    (h : validateArmParams s ps = .ok ()) :
    ∀ nv ∈ ps, (lookupParam s nv.1).isSome := by
  induction ps with
  | nil => simp
  | cons nv rest ih =>
    simp only [validateArmParams] at h
    split at h
    · cases h
    next par hl =>
      split at h
      · cases h
      · intro nv' hnv'
        rcases List.mem_cons.mp hnv' with rfl | hmem
        · simp [hl]
        · exact ih h nv' hmem

lemma dictUpdate_keys {base overlay : List (String × Value)}
    (h : ∀ o ∈ overlay, o.1 ∈ base.map (·.1)) :
    (dictUpdate base overlay).map (·.1) = base.map (·.1) := by
  unfold dictUpdate
  have hfil : overlay.filter (fun o => !(base.any (fun e => e.1 == o.1))) = [] := by
    rw [List.filter_eq_nil_iff]
    intro o ho
    obtain ⟨e, he, hoe⟩ := List.mem_map.mp (h o ho)
    simp only [Bool.not_eq_true', Bool.not_eq_false, List.any_eq_true]
    exact ⟨e, he, by simp [hoe]⟩
  rw [hfil, List.append_nil, List.map_map, List.map_eq_map_iff]
  intro e _
  simp only [Function.comp]
  split <;> rfl

/-! ### Concrete example objects for witnesses and counterexamples -/

/-- An always-accepting domain predicate for example parameters. -/
def vAny : Value → Bool := fun _ => true

/-- An always-satisfied constraint predicate for example constraints. -/
def chkTrue : NumDict → Bool := fun _ => true

def pX : Parameter := ⟨0, "x", .float, [], [], vAny⟩

def pY : Parameter := ⟨1, "y", .float, [], [], vAny⟩

/-- A flat two-parameter example space (the post-construction state of
`SearchSpace([pX, pY])`). -/
def sXY : SearchSpace := ⟨[("x", pX), ("y", pY)], []⟩

/-- A parameter named like `pX` but a different object (same attributes,
different identity). -/
def pXcopy : Parameter := ⟨7, "x", .float, [], [], vAny⟩

/-- A parameter named `z`, absent from `sXY`. -/
def pZ : Parameter := ⟨2, "z", .float, [], [], vAny⟩

def cXY : ParameterConstraint := .order pX pY chkTrue

def cXcopyY : ParameterConstraint := .order pXcopy pY chkTrue

def cXZ : ParameterConstraint := .order pX pZ chkTrue

/-- Hierarchical example: `A` branches to leaves `B` and `C`. -/
def pA : Parameter := ⟨10, "A", .float, [("v1", ["B"]), ("v2", ["C"])], [], vAny⟩

def pB : Parameter := ⟨11, "B", .float, [], [], vAny⟩

def pC : Parameter := ⟨12, "C", .float, [], [], vAny⟩

/-- Hierarchical example with a shared child: both trigger values of
`A2` list `B`. -/
def pA2 : Parameter := ⟨13, "A", .float, [("v1", ["B"]), ("v2", ["B"])], [], vAny⟩

/-- The example hierarchical space over `A`, `B`, `C`. -/
def sABC : SearchSpace := ⟨[("A", pA), ("B", pB), ("C", pC)], []⟩

/-! ### Claims -/

/-- C9.  `cast_arm` is idempotent on every `SearchSpace`: casting an
already-cast arm changes nothing (unknown names pass through unchanged,
known names are coerced by the parameter's cast, which is a projection
onto the parameter's type). -/
theorem cast_arm_idempotent (s : SearchSpace) (arm : Arm) :
    castArm s (castArm s arm) = castArm s arm := by
  simp only [castArm, List.map_map]
  congr 1
  rw [List.map_eq_map_iff]
  intro a _
  simpa [Function.comp] using castEntry_idem s a

/-- C4.  With `raise_error=False`, `check_membership(p)` returns `True`
exactly when (a) `p` has as many entries as the space has parameters,
(b)/(c) every entry's name is a known parameter whose `validate` accepts
the value, and (d) the numeric restriction of `p` (coerced to float)
passes every parameter constraint's `check`. -/
theorem check_membership_iff (s : SearchSpace) (p : List (String × Value)) :
    checkMembership s p = true ↔
      p.length = s.parameters.length ∧
      (∀ nv ∈ p, ∃ par, lookupParam s nv.1 = some par ∧
        par.validate nv.2 = true) ∧
      (∀ c ∈ s.parameterConstraints,
        PCcheck c (numericalParamDict s p) = true) := by
  rw [checkMembership_eq_true_iff]
  simp only [List.all_eq_true, validate_entry_iff]

/-- C6.  If `set_parameter_constraints` fails, the stored constraint list
(indeed the whole space) is unchanged: the replacement is atomic, the
list being reassigned only after every constraint validates. -/
theorem set_parameter_constraints_atomic (s : SearchSpace)
    (cs : List ParameterConstraint) (e : Err)
    (h : (setParameterConstraints s cs).2 = .error e) :
    (setParameterConstraints s cs).1 = s :=
  setParameterConstraints_error h

/-- Witness for C6: installing a constraint that names the unknown
parameter `z` fails and leaves the example space untouched. -/
theorem set_parameter_constraints_atomic_witness :
    (setParameterConstraints sXY [cXZ]).2 =
      .error (.unknownConstraintParam "z") ∧
    (setParameterConstraints sXY [cXZ]).1 = sXY :=
  ⟨by rfl,
   set_parameter_constraints_atomic sXY [cXZ] (.unknownConstraintParam "z")
     (by rfl)⟩

/-- C7.  Every successful `construct_arm` yields an arm keyed by exactly
the space's parameter names; with no overrides (`construct_arm()`, and
equally `out_of_design_arm()`) every parameter maps to `None`. -/
theorem construct_arm_covers_all_parameters :
    (∀ (s : SearchSpace) (ps : List (String × Value)) (nm : Option String)
       (arm : Arm), constructArm s (some ps) nm = .ok arm →
         arm.parameters.map (·.1) = s.parameters.map (·.1)) ∧
    (∀ (s : SearchSpace) (nm : Option String),
       constructArm s Option.none nm =
         .ok ⟨s.parameters.map (fun e => (e.1, Value.none)), nm⟩) ∧
    (∀ s : SearchSpace, outOfDesignArm s = constructArm s Option.none Option.none) := by
  refine ⟨?_, fun s nm => rfl, fun s => rfl⟩
  intro s ps nm arm h
  simp only [constructArm] at h
  cases hv : validateArmParams s ps with
  | error e => rw [hv] at h; cases h
  | ok u =>
    cases u
    rw [hv] at h
    simp only [] at h
    cases h
    have hkeys : ∀ o ∈ ps, o.1 ∈
        (s.parameters.map (fun e => (e.1, Value.none))).map (·.1) := by
      intro o ho
      have := validateArmParams_ok hv o ho
      rw [lookupParam_isSome_iff] at this
      simpa [List.map_map, Function.comp] using this
    rw [dictUpdate_keys hkeys]
    simp [List.map_map, Function.comp]

/-- Witness for C7: constructing an arm over the example space with one
override keys the result by exactly the space's parameter names. -/
theorem construct_arm_covers_all_parameters_witness :
    constructArm sXY (some [("x", Value.float 1)]) Option.none =
      .ok ⟨[("x", Value.float 1), ("y", Value.none)], Option.none⟩ ∧
    ([("x", Value.float 1), ("y", Value.none)] : List (String × Value)).map (·.1) =
      sXY.parameters.map (·.1) :=
  ⟨by decide,
   construct_arm_covers_all_parameters.1 sXY [("x", Value.float 1)] Option.none
     ⟨[("x", Value.float 1), ("y", Value.none)], Option.none⟩ (by decide)⟩

/-- C5 counterexample.  `add_parameter_constraints` does *not* rebind: a
structural constraint holding a value-equal but distinct copy of a space
parameter is accepted and installed as-is, so after the (successful) call
its internal reference is not the space's stored instance — the claim
fails for `add_parameter_constraints`. -/
theorem add_parameter_constraints_not_rebound :
    (addParameterConstraints sXY [cXcopyY]).2 = .ok () ∧
    (addParameterConstraints sXY [cXcopyY]).1.parameterConstraints = [cXcopyY] ∧
    lookupParam (addParameterConstraints sXY [cXcopyY]).1 "x" = some pX ∧
    pXcopy ≠ pX ∧
    ¬ reboundInvariant (addParameterConstraints sXY [cXcopyY]).1 cXcopyY := by
  have hne : pXcopy ≠ pX := by
    intro h
    exact absurd (congrArg Parameter.uid h) (by decide)
  refine ⟨by rfl, by rfl, by rfl, hne, ?_⟩
  intro hinv
  have h1 : lookupParam (addParameterConstraints sXY [cXcopyY]).1 pXcopy.name =
      some pXcopy := hinv.1
  have h2 : lookupParam (addParameterConstraints sXY [cXcopyY]).1 "x" =
      some pX := by rfl
  rw [show pXcopy.name = "x" from rfl, h2] at h1
  exact hne (Option.some.injEq _ _ ▸ h1).symm

/-- C5 amended.  After a successful `set_parameter_constraints`, every
installed structural constraint's parameter references are the space's
own stored instances for the matching names; `add_parameter_constraints`
only validates value equality and installs the constraints unchanged. -/
theorem set_parameter_constraints_rebinds (s : SearchSpace)
    (cs : List ParameterConstraint) (hwf : WFspace s)
    (h : (setParameterConstraints s cs).2 = .ok ()) :
    ∀ c ∈ (setParameterConstraints s cs).1.parameterConstraints,
      reboundInvariant (setParameterConstraints s cs).1 c :=
  setParameterConstraints_rebound hwf h

/-- Witness for the amended C5: rebinding on the example space. -/
theorem set_parameter_constraints_rebinds_witness :
    WFspace sXY ∧ (setParameterConstraints sXY [cXY]).2 = .ok () ∧
    ∀ c ∈ (setParameterConstraints sXY [cXY]).1.parameterConstraints,
      reboundInvariant (setParameterConstraints sXY [cXY]).1 c :=
  ⟨by unfold WFspace; decide, by rfl,
   set_parameter_constraints_rebinds sXY [cXY] (by unfold WFspace; decide)
     (by rfl)⟩

/-- C8 counterexample.  A duplicate-name input makes construction fail
with the plain duplicate-names `ValueError`, not with an
`InvalidDesign`-class error: no path of the constructor produces
`invalidDesign`. -/
theorem dup_names_not_invalid_design :
    mkSearchSpace [pX, pXcopy] [] = .error .dupParamNames ∧
    Err.dupParamNames ≠ Err.invalidDesign ∧
    mkSearchSpace [pX, pXcopy] [] ≠ .error .invalidDesign := by
  refine ⟨by rfl, by decide, ?_⟩
  rw [show mkSearchSpace [pX, pXcopy] [] = .error .dupParamNames from rfl]
  intro h
  injection h with h2
  cases h2

/-- C8 amended.  Construction fails (with the duplicate-names
`ValueError`) whenever two input parameters share a name; with
pairwise-distinct names (and no constraints) it succeeds and stores
exactly one entry per input parameter. -/
theorem construction_unique_names :
    (∀ ps : List Parameter, ¬ (ps.map (·.name)).Nodup →
       mkSearchSpace ps [] = .error .dupParamNames) ∧
    (∀ ps : List Parameter, (ps.map (·.name)).Nodup →
       ∃ s, mkSearchSpace ps [] = .ok s ∧
         s.parameters.length = ps.length) := by
  constructor
  · intro ps hnd
    unfold mkSearchSpace
    rw [if_pos]
    have hsub : List.Sublist ((ps.map (·.name)).dedup) (ps.map (·.name)) :=
      List.dedup_sublist _
    have hle := hsub.length_le
    have hne : (ps.map (·.name)).dedup ≠ ps.map (·.name) := by
      intro he
      exact hnd (List.dedup_eq_self.mp he)
    have hlt : (ps.map (·.name)).dedup.length ≠ (ps.map (·.name)).length := by
      intro hl
      exact hne (hsub.eq_of_length hl)
    simp only [List.length_map] at *
    omega
  · intro ps hnd
    exact ⟨⟨ps.map (fun p => (p.name, p)), []⟩, mkSearchSpace_nodup_ok ps hnd,
      by simp⟩

/-- Witness for the amended C8: a duplicate-name list fails, a
unique-name list succeeds with one entry per parameter. -/
theorem construction_unique_names_witness :
    (¬ ([pX, pXcopy].map (·.name)).Nodup) ∧
    mkSearchSpace [pX, pXcopy] [] = .error .dupParamNames ∧
    ([pX, pY].map (·.name)).Nodup ∧
    ∃ s, mkSearchSpace [pX, pY] [] = .ok s ∧ s.parameters.length = 2 :=
  ⟨by decide, construction_unique_names.1 [pX, pXcopy] (by decide),
   by decide, construction_unique_names.2 [pX, pY] (by decide)⟩

/-! ### Root discovery lemmas -/

lemma namesFinset_mk (ps : List Parameter) (C : List ParameterConstraint) :
    namesFinset ⟨ps.map (fun p => (p.name, p)), C⟩ = (ps.map (·.name)).toFinset := by
  show ((ps.map (fun p => (p.name, p))).map (·.1)).toFinset = _
  rw [List.map_map]
  rfl

lemma findRoot_ok {s : SearchSpace} (hwf : WFspace s) {allN : Finset String}
    {root : Parameter} (h : findRoot s allN = .ok root) :
    allN \ dependentNames s = {root.name} ∧
    ∃ n, lookupParam s n = some root := by
  unfold findRoot at h
  split at h
  next hcard =>
    cases hl : lookupParam s ((allN \ dependentNames s).min'
        (Finset.card_pos.mp (by rw [hcard]; exact Nat.one_pos))) with
    | none => rw [hl] at h; cases h
    | some p =>
      rw [hl] at h
      cases h
      obtain ⟨a, ha⟩ := Finset.card_eq_one.mp hcard
      have hmin : (allN \ dependentNames s).min'
          (Finset.card_pos.mp (by rw [hcard]; exact Nat.one_pos)) = a := by
        simp [ha]
      rw [hmin] at hl
      have : root.name = a := lookupParam_name hwf hl
      exact ⟨by rw [ha, this], a, hl⟩
  next hcard => cases h

lemma findRoot_card_ne {s : SearchSpace} {allN : Finset String}
    (hcard : (allN \ dependentNames s).card ≠ 1) :
    findRoot s allN = .error (.noUniqueRoot (allN \ dependentNames s)) := by
  unfold findRoot
  rw [dif_neg hcard]

/-- Unpacking a successful `HierarchicalSearchSpace` construction. -/
lemma mkHSS_ok {ps : List Parameter} {cs : List ParameterConstraint}
    {hss : HierarchicalSearchSpace}
    (h : mkHierarchicalSearchSpace ps cs = .ok hss) :
    ∃ s, mkSearchSpace ps cs = .ok s ∧
      hss.toSearchSpace = s ∧
      hss.allParameterNames = namesFinset s ∧
      findRoot s (namesFinset s) = .ok hss.root ∧
      validateHierarchicalStructure s (namesFinset s) hss.root = .ok () := by
  unfold mkHierarchicalSearchSpace at h
  split at h
  · cases h
  next s hmk =>
    split at h
    · cases h
    next root hfr =>
      split at h
      · cases h
      next u hvl =>
        cases u
        cases h
        exact ⟨s, hmk, rfl, rfl, hfr, hvl⟩

/-- The root-candidate set computed inside a successfully constructed
space equals the one computed from the input list. -/
lemma rootCandidates_eq {ps : List Parameter} {cs : List ParameterConstraint}
    {s : SearchSpace} (h : mkSearchSpace ps cs = .ok s) :
    namesFinset s \ dependentNames s = rootCandidates ps := by
  obtain ⟨hp, -, -⟩ := mkSearchSpace_ok h
  unfold rootCandidates
  have h1 : namesFinset s = (ps.map (·.name)).toFinset := by
    rw [show namesFinset s = (s.parameters.map (·.1)).toFinset from rfl, hp,
      List.map_map]
    rfl
  have h2 : dependentNames s = dependentNamesL ps := by
    show s.parameters.foldl _ ∅ = _
    rw [hp]
    simp only [dependentNamesL, List.foldl_map]
  rw [h1, h2]

/-- C1.  Root discovery: `dependentNamesL` is exactly the set of names
appearing in any hierarchical parameter's dependents lists; a successful
hierarchical construction implies exactly one parameter name is outside
that set and the recorded root is the space's parameter carrying that
name, while a candidate count different from one makes construction
fail. -/
theorem hss_find_root_unique :
    (∀ (ps : List Parameter) (x : String),
       x ∈ dependentNamesL ps ↔
         ∃ p ∈ ps, p.isHierarchical = true ∧ x ∈ flatDeps p) ∧
    (∀ (ps : List Parameter) (cs : List ParameterConstraint)
       (hss : HierarchicalSearchSpace),
       mkHierarchicalSearchSpace ps cs = .ok hss →
         (rootCandidates ps).card = 1 ∧
         rootCandidates ps = {hss.root.name} ∧ hss.root ∈ ps) ∧
    (∀ (ps : List Parameter) (cs : List ParameterConstraint),
       (rootCandidates ps).card ≠ 1 →
         ∃ e, mkHierarchicalSearchSpace ps cs = .error e) := by
  refine ⟨fun ps x => mem_dependentNamesL, ?_, ?_⟩
  · intro ps cs hss h
    obtain ⟨s, hmk, -, -, hfr, -⟩ := mkHSS_ok h
    have hwf := mkSearchSpace_ok_wf hmk
    obtain ⟨hset, n, hn⟩ := findRoot_ok hwf hfr
    rw [rootCandidates_eq hmk] at hset
    refine ⟨by rw [hset]; exact Finset.card_singleton _, hset, ?_⟩
    have hmem := lookupParam_mem hn
    rw [(mkSearchSpace_ok hmk).1] at hmem
    simp only [List.mem_map] at hmem
    obtain ⟨p, hp, he⟩ := hmem
    cases he
    exact hp
  · intro ps cs hcard
    cases hmk : mkSearchSpace ps cs with
    | error e =>
      refine ⟨e, ?_⟩
      unfold mkHierarchicalSearchSpace
      rw [hmk]
    | ok s =>
      have hne : (namesFinset s \ dependentNames s).card ≠ 1 := by
        rw [rootCandidates_eq hmk]
        exact hcard
      refine ⟨.noUniqueRoot (namesFinset s \ dependentNames s), ?_⟩
      unfold mkHierarchicalSearchSpace
      rw [hmk]
      simp only []
      rw [show ((s.parameters.map (·.1)).toFinset : Finset String)
            = namesFinset s from rfl]
      rw [findRoot_card_ne hne]

/-- Witness for C1: the three-parameter hierarchical example constructs
successfully with root `A` and a unique candidate, and the two-root flat
example fails. -/
theorem hss_find_root_unique_witness :
    (∃ hss, mkHierarchicalSearchSpace [pA, pB, pC] [] = .ok hss ∧
       (rootCandidates [pA, pB, pC]).card = 1 ∧
       rootCandidates [pA, pB, pC] = {hss.root.name} ∧ hss.root ∈ [pA, pB, pC]) ∧
    ((rootCandidates [pX, pY]).card ≠ 1 ∧
       ∃ e, mkHierarchicalSearchSpace [pX, pY] [] = .error e) := by
  constructor
  · cases hmk : mkHierarchicalSearchSpace [pA, pB, pC] [] with
    | error e =>
      have hok : (mkHierarchicalSearchSpace [pA, pB, pC] []).isOk = true := by rfl
      rw [hmk] at hok
      cases hok
    | ok hss =>
      obtain ⟨h1, h2, h3⟩ := hss_find_root_unique.2.1 [pA, pB, pC] [] hss hmk
      exact ⟨hss, rfl, h1, h2, h3⟩
  · have hcard : (rootCandidates [pX, pY]).card ≠ 1 := by decide
    exact ⟨hcard, hss_find_root_unique.2.2 [pX, pY] [] hcard⟩

/-! ### Completeness lemmas -/

lemma validateHierarchicalStructure_eq {s : SearchSpace} {allN : Finset String}
    {root : Parameter} {visited : Finset String}
    (h : checkSubtree s (s.parameters.length + 1) root = .ok visited) :
    validateHierarchicalStructure s allN root =
      if allN \ visited = ∅ then .ok ()
      else .error (.unreachableParams (allN \ visited)) := by
  unfold validateHierarchicalStructure
  rw [h]

/-- C3.  The visited set returned by checking the root's subtree must
equal the snapshot of all parameter names: validation succeeds exactly
when they are equal, and otherwise fails naming the unreachable set
`allNames \ visited`; such a failure makes the whole construction fail. -/
theorem hss_completeness :
    (∀ (s : SearchSpace) (root : Parameter) (visited : Finset String),
       WFspace s → root.name ∈ namesFinset s →
       checkSubtree s (s.parameters.length + 1) root = .ok visited →
         ((validateHierarchicalStructure s (namesFinset s) root = .ok () ↔
             visited = namesFinset s) ∧
          (visited ≠ namesFinset s →
             validateHierarchicalStructure s (namesFinset s) root =
               .error (.unreachableParams (namesFinset s \ visited))))) ∧
    (∀ (ps : List Parameter) (cs : List ParameterConstraint) (s : SearchSpace)
       (root : Parameter) (e : Err),
       mkSearchSpace ps cs = .ok s →
       findRoot s (namesFinset s) = .ok root →
       validateHierarchicalStructure s (namesFinset s) root = .error e →
         mkHierarchicalSearchSpace ps cs = .error e) := by
  constructor
  · intro s root visited hwf hroot hcs
    have hsub : visited ⊆ namesFinset s := by
      intro x hx
      rcases Finset.mem_insert.mp (checkSubtree_subset hwf hcs hx) with rfl | hx'
      · exact hroot
      · exact hx'
    rw [validateHierarchicalStructure_eq hcs]
    by_cases hd : namesFinset s \ visited = ∅
    · rw [if_pos hd]
      have heq : visited = namesFinset s :=
        Finset.Subset.antisymm hsub (Finset.sdiff_eq_empty_iff_subset.mp hd)
      exact ⟨iff_of_true rfl heq, fun hne => absurd heq hne⟩
    · rw [if_neg hd]
      constructor
      · constructor
        · intro h; cases h
        · intro heq
          exact absurd (by rw [heq]; simp) hd
      · intro _; rfl
  · intro ps cs s root e hmk hfr hvl
    unfold mkHierarchicalSearchSpace
    rw [hmk]
    simp only []
    have hfr' : findRoot s ((s.parameters.map (·.1)).toFinset) = .ok root := hfr
    rw [hfr']
    simp only []
    have hvl' : validateHierarchicalStructure s
        ((s.parameters.map (·.1)).toFinset) root = .error e := hvl
    rw [hvl']

/-- Witness for C3: on the example tree the visited set `{A, B, C}`
equals the name snapshot and validation succeeds. -/
theorem hss_completeness_witness :
    WFspace sABC ∧ pA.name ∈ namesFinset sABC ∧
    checkSubtree sABC (sABC.parameters.length + 1) pA =
      .ok ({"A", "B", "C"} : Finset String) ∧
    ((validateHierarchicalStructure sABC (namesFinset sABC) pA = .ok () ↔
        ({"A", "B", "C"} : Finset String) = namesFinset sABC) ∧
     (({"A", "B", "C"} : Finset String) ≠ namesFinset sABC →
        validateHierarchicalStructure sABC (namesFinset sABC) pA =
          .error (.unreachableParams (namesFinset sABC \ {"A", "B", "C"})))) :=
  ⟨by unfold WFspace; decide, by decide, by decide,
   hss_completeness.1 sABC pA {"A", "B", "C"} (by unfold WFspace; decide)
     (by decide) (by decide)⟩

/-! ### Subtree disjointness -/

/-- The example space whose root `A` lists `B` under both trigger
values. -/
def sAB2 : SearchSpace := ⟨[("A", pA2), ("B", pB)], []⟩

lemma checkSubtree_cons_ok {s : SearchSpace} {fuel : Nat} {root : Parameter}
    {S0 : Finset String} {rest : List (Except Err (Finset String))}
    (hh : root.isHierarchical = true)
    (hcr : childResults s fuel root = Except.ok S0 :: rest) :
    checkSubtree s (fuel + 1) root =
      match duFold S0 rest with
      | .error e => .error e
      | .ok u => .ok (insert root.name u) := by
  rw [checkSubtree_succ, if_pos hh, hcr]

/-- C2.  Subtree validation: at every hierarchical node whose check
succeeds, the per-child visited sets are pairwise disjoint and the node's
visited set is its own name plus their union; if the (all-successful)
child sets are not pairwise disjoint, the check fails with a
`sharedSubtreeParams` error naming a nonempty set of parameters, each of
which occurs in two different subtrees; and a subtree failure propagates
to a construction failure. -/
theorem hss_subtree_disjointness :
    (∀ (s : SearchSpace) (fuel : Nat) (root : Parameter) (v : Finset String),
       root.isHierarchical = true →
       checkSubtree s (fuel + 1) root = .ok v →
         ∃ sets : List (Finset String),
           childResults s fuel root = sets.map Except.ok ∧
           List.Pairwise Disjoint sets ∧
           v = insert root.name (sets.foldl (· ∪ ·) ∅)) ∧
    (∀ (s : SearchSpace) (fuel : Nat) (root : Parameter)
       (sets : List (Finset String)),
       root.isHierarchical = true →
       childResults s fuel root = sets.map Except.ok →
       ¬ List.Pairwise Disjoint sets →
         ∃ t : Finset String,
           checkSubtree s (fuel + 1) root = .error (.sharedSubtreeParams t) ∧
           t.Nonempty ∧
           ∃ j : Fin sets.length, (∀ x ∈ t, x ∈ sets.get j) ∧
             ∀ x ∈ t, ∃ i : Fin sets.length, i < j ∧ x ∈ sets.get i) ∧
    (∀ (ps : List Parameter) (cs : List ParameterConstraint) (s : SearchSpace)
       (root : Parameter) (e : Err),
       mkSearchSpace ps cs = .ok s →
       findRoot s (namesFinset s) = .ok root →
       checkSubtree s (s.parameters.length + 1) root = .error e →
         mkHierarchicalSearchSpace ps cs = .error e) := by
  refine ⟨?_, ?_, ?_⟩
  · intro s fuel root v hh h
    rw [checkSubtree_succ, if_pos hh] at h
    split at h
    · cases h
    next r rs hcr =>
      cases r with
      | error e => cases h
      | ok S0 =>
        simp only [] at h
        cases hdf : duFold S0 rs with
        | error e => rw [hdf] at h; cases h
        | ok u =>
          rw [hdf] at h
          cases h
          obtain ⟨ss, rfl, hchain, rfl⟩ := duFold_ok hdf
          refine ⟨S0 :: ss, hcr, chainDisjoint_pairwise hchain, ?_⟩
          simp [List.foldl_cons]
  · intro s fuel root sets hh hcr hnp
    cases sets with
    | nil => simp at hnp
    | cons S0 rest =>
      have hchain : ¬ chainDisjoint S0 rest := by
        intro hc
        exact hnp (chainDisjoint_pairwise hc)
      obtain ⟨j, t, herr, hne, hj, hacc⟩ := duFold_not_chain hchain
      refine ⟨t, ?_, hne, ?_⟩
      · rw [checkSubtree_cons_ok hh (by simpa using hcr), herr]
      · refine ⟨j.succ, ?_, ?_⟩
        · intro x hx
          simpa using hj x hx
        · intro x hx
          rcases hacc x hx with hx0 | ⟨i, hij, hxi⟩
          · exact ⟨⟨0, by simp⟩, by simp, by simpa using hx0⟩
          · exact ⟨i.succ, by simpa using hij, by simpa using hxi⟩
  · intro ps cs s root e hmk hfr hcs
    have hvl : validateHierarchicalStructure s (namesFinset s) root =
        .error e := by
      unfold validateHierarchicalStructure
      rw [hcs]
    unfold mkHierarchicalSearchSpace
    rw [hmk]
    simp only []
    have hfr' : findRoot s ((s.parameters.map (·.1)).toFinset) = .ok root := hfr
    rw [hfr']
    simp only []
    have hvl' : validateHierarchicalStructure s
        ((s.parameters.map (·.1)).toFinset) root = .error e := hvl
    rw [hvl']

/-- Witness for C2: a successful split at the example root `A` (children
`{B}`, `{C}`, disjoint) and a failing one where both branches of `A`
visit `{B}`. -/
theorem hss_subtree_disjointness_witness :
    (pA.isHierarchical = true ∧
     checkSubtree sABC (2 + 1) pA = .ok ({"A", "B", "C"} : Finset String) ∧
     ∃ sets : List (Finset String),
       childResults sABC 2 pA = sets.map Except.ok ∧
       List.Pairwise Disjoint sets ∧
       ({"A", "B", "C"} : Finset String) =
         insert pA.name (sets.foldl (· ∪ ·) ∅)) ∧
    (pA2.isHierarchical = true ∧
     childResults sAB2 2 pA2 =
       ([{"B"}, {"B"}] : List (Finset String)).map Except.ok ∧
     ¬ List.Pairwise Disjoint ([{"B"}, {"B"}] : List (Finset String)) ∧
     ∃ t : Finset String,
       checkSubtree sAB2 (2 + 1) pA2 = .error (.sharedSubtreeParams t) ∧
       t.Nonempty ∧
       ∃ j : Fin 2, (∀ x ∈ t, x ∈ [({"B"} : Finset String), {"B"}].get j) ∧
         ∀ x ∈ t, ∃ i : Fin 2, i < j ∧
           x ∈ [({"B"} : Finset String), {"B"}].get i) := by
  have hnp : ¬ List.Pairwise Disjoint ([{"B"}, {"B"}] : List (Finset String)) := by
    intro hp
    rcases List.pairwise_cons.mp hp with ⟨hh, -⟩
    have hd := hh {"B"} (by simp)
    rw [disjoint_self] at hd
    simp at hd
  constructor
  · exact ⟨by decide, by decide,
      hss_subtree_disjointness.1 sABC 2 pA {"A", "B", "C"} (by decide)
        (by decide)⟩
  · exact ⟨by decide, by decide, hnp,
      hss_subtree_disjointness.2.1 sAB2 2 pA2 [{"B"}, {"B"}] (by decide)
        (by decide) hnp⟩

/-! ### Clone lemmas -/

lemma find_clone_aux :
    ∀ (l : List (String × Parameter)), (∀ e ∈ l, e.1 = e.2.name) →
    ∀ n : String,
      ((((l.map (fun e => cloneParam e.2)).map (fun p => (p.name, p))).find?
          (fun e => e.1 == n)).map (·.2)) =
        ((l.find? (fun e => e.1 == n)).map (·.2)).map cloneParam := by
  intro l
  induction l with
  | nil => intro _ n; simp
  | cons e l ih =>
    intro hwf n
    have he : e.1 = e.2.name := hwf e (by simp)
    by_cases hn : e.1 = n
    · rw [List.map_cons, List.map_cons,
        List.find?_cons_of_pos _ (by simp [cloneParam_name, ← he, hn]),
        List.find?_cons_of_pos _ (by simp [hn])]
      simp
    · rw [List.map_cons, List.map_cons,
        List.find?_cons_of_neg _ (by simp [cloneParam_name, ← he, hn]),
        List.find?_cons_of_neg _ (by simp [hn])]
      exact ih (fun e' he' => hwf e' (List.mem_cons_of_mem _ he')) n

lemma lookup_clone {s : SearchSpace} (hwf : WFspace s)
    (C : List ParameterConstraint) (n : String) :
    lookupParam ⟨(s.parameters.map (fun e => cloneParam e.2)).map
      (fun p => (p.name, p)), C⟩ n = (lookupParam s n).map cloneParam :=
  find_clone_aux s.parameters hwf n

lemma validateOne_clone {s : SearchSpace} (hwf : WFspace s)
    {c : ParameterConstraint} (hc : reboundInvariant s c) :
    validateOneConstraint
      ⟨(s.parameters.map (fun e => cloneParam e.2)).map (fun p => (p.name, p)),
        []⟩ (cloneConstraint c) = .ok () := by
  cases c with
  | order l u chk =>
    rw [show cloneConstraint (.order l u chk)
        = .order (cloneParam l) (cloneParam u) chk from rfl]
    show checkParamsInSpace _ [cloneParam l, cloneParam u] = .ok ()
    rw [checkParamsInSpace_ok_iff]
    intro p hp
    rcases List.mem_cons.mp hp with rfl | hp'
    · refine ⟨cloneParam l, ?_, by rw [paramEq_clone]; exact paramEq_refl l⟩
      rw [cloneParam_name, lookup_clone hwf, hc.1]
      rfl
    · rcases List.mem_singleton.mp hp' with rfl
      refine ⟨cloneParam u, ?_, by rw [paramEq_clone]; exact paramEq_refl u⟩
      rw [cloneParam_name, lookup_clone hwf, hc.2]
      rfl
  | sum ps chk =>
    rw [show cloneConstraint (.sum ps chk) = .sum (ps.map cloneParam) chk
        from rfl]
    show checkParamsInSpace _ (ps.map cloneParam) = .ok ()
    rw [checkParamsInSpace_ok_iff]
    intro p' hp'
    obtain ⟨p, hp, rfl⟩ := List.mem_map.mp hp'
    refine ⟨cloneParam p, ?_, by rw [paramEq_clone]; exact paramEq_refl p⟩
    rw [cloneParam_name, lookup_clone hwf, hc p hp]
    rfl
  | generic d chk =>
    rw [show cloneConstraint (.generic d chk) = .generic d chk from rfl]
    show checkNamesInSpace _ (d.map Prod.fst) = .ok ()
    rw [checkNamesInSpace_ok_iff]
    intro n hn
    obtain ⟨nv, hnv, rfl⟩ := List.mem_map.mp hn
    rw [lookup_clone hwf]
    have := hc nv hnv
    cases hl : lookupParam s nv.1 with
    | none => rw [hl] at this; cases this
    | some q => simp

/-- Cloning a successfully constructed space succeeds: names stay
pairwise distinct and the cloned constraints revalidate against the
cloned parameters. -/
lemma cloneSearchSpace_ok {ps : List Parameter} {cs : List ParameterConstraint}
    {s : SearchSpace} (h : mkSearchSpace ps cs = .ok s) :
    ∃ s', cloneSearchSpace s = .ok s' := by
  have hwf := mkSearchSpace_ok_wf h
  have hkeys : (s.parameters.map (fun e => cloneParam e.2)).map (·.name) =
      s.parameters.map (·.1) := by
    rw [List.map_map, List.map_eq_map_iff]
    intro e he
    simp only [Function.comp, cloneParam_name]
    exact (hwf e he).symm
  have hnodup : ((s.parameters.map (fun e => cloneParam e.2)).map (·.name)).Nodup := by
    rw [hkeys, (mkSearchSpace_ok h).1, List.map_map]
    exact mkSearchSpace_ok_nodup h
  have hcond : ¬ (((s.parameters.map (fun e => cloneParam e.2)).map
      (·.name)).dedup.length < (s.parameters.map (fun e => cloneParam e.2)).length) := by
    rw [List.dedup_eq_self.mpr hnodup]
    simp
  have hval : validateParameterConstraints
      ⟨(s.parameters.map (fun e => cloneParam e.2)).map (fun p => (p.name, p)),
        []⟩ (s.parameterConstraints.map cloneConstraint) = .ok () := by
    rw [validateParameterConstraints_ok_iff]
    intro c' hc'
    obtain ⟨c, hcmem, rfl⟩ := List.mem_map.mp hc'
    exact validateOne_clone hwf (mkSearchSpace_ok_rebound h c hcmem)
  unfold cloneSearchSpace mkSearchSpace
  rw [if_neg hcond, setParameterConstraints, hval]
  exact ⟨_, rfl⟩

/-- C10.  `clone()` on a `HierarchicalSearchSpace` runs the base-class
method and rebuilds a plain base `SearchSpace`: the clone succeeds,
records no root, its `cast_arm` is the base-class cast (not the
hierarchical `NotImplementedError` stub) and its `flatten` is not the
hierarchical stub either (the base class has no `flatten` at all), while
on the original hierarchical object both stubs fail. -/
theorem hss_clone_is_base (ps : List Parameter) (cs : List ParameterConstraint)
    (hss : HierarchicalSearchSpace)
    (h : mkHierarchicalSearchSpace ps cs = .ok hss) :
    (∃ s', cloneObj (.hierarchical hss) = .ok (.base s') ∧
       rootOf (.base s') = Option.none ∧
       (∀ arm, castArmObj (.base s') arm = .ok (castArm s' arm)) ∧
       flattenObj (.base s') = .error .attributeError ∧
       flattenObj (.base s') ≠ .error .notImplemented) ∧
    (∀ arm, castArmObj (.hierarchical hss) arm = .error .notImplemented) ∧
    flattenObj (.hierarchical hss) = .error .notImplemented := by
  obtain ⟨s, hmk, hts, -, -, -⟩ := mkHSS_ok h
  obtain ⟨s', hcl⟩ := cloneSearchSpace_ok hmk
  refine ⟨⟨s', ?_, rfl, fun arm => rfl, rfl, ?_⟩, fun arm => rfl, rfl⟩
  · unfold cloneObj
    rw [show (AnySearchSpace.hierarchical hss).toSS = s from hts, hcl]
  · intro hq
    injection hq with h2
    cases h2

/-- Witness for C10: the example hierarchical space clones into a base
space while its own `cast_arm` raises the not-implemented failure. -/
theorem hss_clone_is_base_witness :
    ∃ hss, mkHierarchicalSearchSpace [pA, pB, pC] [] = .ok hss ∧
      (∃ s', cloneObj (.hierarchical hss) = .ok (.base s') ∧
        rootOf (.base s') = Option.none) ∧
      (∀ arm, castArmObj (.hierarchical hss) arm = .error .notImplemented) ∧
      flattenObj (.hierarchical hss) = .error .notImplemented := by
  cases hmk : mkHierarchicalSearchSpace [pA, pB, pC] [] with
  | error e =>
    have hok : (mkHierarchicalSearchSpace [pA, pB, pC] []).isOk = true := by rfl
    rw [hmk] at hok
    cases hok
  | ok hss =>
    obtain ⟨⟨s', h1, h2, -, -, -⟩, h3, h4⟩ :=
      hss_clone_is_base [pA, pB, pC] [] hss hmk
    exact ⟨hss, rfl, ⟨s', h1, h2⟩, h3, h4⟩
